import Mathlib

/-!
Shallow embedding of `src/simulation.py` (social-deduction voting-game
simulator) and proofs of the specification claims about it.

Modelling conventions:
* `numpy.random.Generator` is modelled by `Rng`: an infinite stream of
  naturals plus a cursor.  `rng.choice(candidates)` becomes `choice`,
  which consumes one stream element and indexes into the candidate list
  (`none` on an empty list, where numpy raises `ValueError`).  Every
  possible sequence of uniform draws corresponds to some stream, so
  universally quantified theorems cover every random outcome.
* Python `set` intersections/differences (only cardinalities are used)
  are modelled through `List.toFinset`.
* `Counter` key order is first-occurrence order, modelled by
  `firstOccurrences`.
* The `while` loop of `simulate_round` is modelled with explicit fuel;
  `simulate_round` supplies fuel `players.length + 1`, and the
  termination theorem (C5) shows this fuel is never exhausted.
* The two append-only row sinks become explicit result lists.
-/

namespace GameSim

/-- Model of `numpy.random.Generator`: a stream of naturals and a cursor. -/
structure Rng where
  stream : Nat → Nat
  idx : Nat

/-- Draw one raw value from the stream, advancing the cursor. -/
def Rng.next (g : Rng) : Nat × Rng :=
  (g.stream g.idx, ⟨g.stream, g.idx + 1⟩)

/-- Model of `rng.choice(l)`: select an element of `l` determined by the next
stream value; `none` on an empty list (numpy raises `ValueError` there). -/
def choice (l : List Nat) (g : Rng) : Option (Nat × Rng) :=
  if h : l = [] then none
  else
    some (l.get ⟨g.next.1 % l.length, Nat.mod_lt _ (List.length_pos.mpr h)⟩,
      g.next.2)

/-- `SimParams` dataclass: sweep values, replicate count and the unused bias
parameter `alpha` (a float in the source, carried but never read). -/
structure SimParams where
  P_values : List Nat
  R_values : List Nat
  n_matches : Nat
  alpha : Rat

/-- `VoteContext` dataclass: the coordinate of the current step. -/
structure VoteContext where
  P : Nat
  R : Nat
  matchId : Nat
  roundId : Nat
  stepId : Nat
  impostors : List Nat
deriving DecidableEq

/-- `update_ctx` (a `dataclasses.replace` call): copy the context with only
the step id changed, which is the single use in the source. -/
def update_ctx (ctx : VoteContext) (s : Nat) : VoteContext :=
  ⟨ctx.P, ctx.R, ctx.matchId, ctx.roundId, s, ctx.impostors⟩

/-- One row of the votes dataframe. -/
structure VoteRecord where
  P : Nat
  R : Nat
  matchId : Nat
  roundId : Nat
  stepId : Nat
  voter : Nat
  target : Nat
  voter_role : String
  target_role : String
deriving DecidableEq

/-- One row of the game-results dataframe. -/
structure GameResultRecord where
  P : Nat
  R : Nat
  matchId : Nat
  roundId : Nat
  stepId : Nat
  eliminated : Nat
  eliminated_role : String
  max_votes : Nat
  tie_size : Nat
  impostors_wins : Bool
deriving DecidableEq

/-- Role string derived from membership in the round's impostor set. -/
def roleOf (p : Nat) (imps : List Nat) : String :=
  if p ∈ imps then "impostor" else "civil"

/-- `choose_targets` body: one uniform draw from `alive \ \x7bvoter\x7d` per
voter in `voters`, threading the generator. -/
def chooseTargetsFrom (alive : List Nat) :
    List Nat → Rng → Option (List Nat × Rng)
  | [], g => some ([], g)
  | v :: vs, g =>
    match choice (alive.filter (fun p => p ≠ v)) g with
    | none => none
    | some (t, g1) =>
      match chooseTargetsFrom alive vs g1 with
      | none => none
      | some (ts, g2) => some (t :: ts, g2)

/-- `choose_targets(players_alive, rng)`: voters iterate over the alive pool
itself, in pool order. -/
def choose_targets (alive : List Nat) (g : Rng) : Option (List Nat × Rng) :=
  chooseTargetsFrom alive alive g

/-- Distinct elements of a list in first-occurrence order: the key order of a
Python `Counter`/`dict` built by insertion. -/
def firstOccurrences : List Nat → List Nat
  | [] => []
  | x :: xs => x :: (firstOccurrences xs).filter (fun y => y ≠ x)

/-- `max(count_votes.values())`: the largest multiplicity in `targets`
(`0` for an empty list, where Python `max` would raise). -/
def max_votes_of (targets : List Nat) : Nat :=
  (targets.map (fun p => targets.count p)).foldr max 0

/-- The tied plurality winners, in `Counter` insertion order. -/
def most_voted_of (targets : List Nat) : List Nat :=
  (firstOccurrences targets).filter
    (fun p => targets.count p = max_votes_of targets)

/-- `pick_eliminated_from_targets`: tally, take the most-voted set, and break
the tie with one uniform draw. -/
def pick_eliminated_from_targets (targets : List Nat) (g : Rng) :
    Option (Nat × Nat × List Nat × Rng) :=
  match choice (most_voted_of targets) g with
  | none => none
  | some (e, g1) => some (e, max_votes_of targets, most_voted_of targets, g1)

/-- `len(set(players_alive) & impostors)`: distinct alive impostors. -/
def nAliveImp (alive imps : List Nat) : Nat :=
  (alive.toFinset.filter (fun p => p ∈ imps)).card

/-- `len(set(players_alive) - impostors)`: distinct alive civilians. -/
def nAliveCiv (alive imps : List Nat) : Nat :=
  (alive.toFinset.filter (fun p => p ∉ imps)).card

/-- `impostors_win`: the impostor faction wins when its alive count reaches
the civilian alive count (parity-or-advantage). -/
def impostors_win (alive imps : List Nat) : Bool :=
  decide (nAliveCiv alive imps ≤ nAliveImp alive imps)

/-- The `while` condition of `simulate_round`: some impostor still alive and
the impostors have not yet won. -/
def loopGuard (alive imps : List Nat) : Bool :=
  decide (0 < nAliveImp alive imps) && !(impostors_win alive imps)

/-- `append_votes_rows`: one `VoteRecord` per (voter, target) pair, in voter
order. -/
def append_votes_rows (ctx : VoteContext) (alive targets : List Nat) :
    List VoteRecord :=
  (alive.zip targets).map (fun vt =>
    ⟨ctx.P, ctx.R, ctx.matchId, ctx.roundId, ctx.stepId, vt.1, vt.2,
      roleOf vt.1 ctx.impostors, roleOf vt.2 ctx.impostors⟩)

/-- `append_game_result_row`: the single elimination row of one step. -/
def append_game_result_row (ctx : VoteContext) (eliminated max_votes tie_size : Nat)
    (flag : Bool) : GameResultRecord :=
  ⟨ctx.P, ctx.R, ctx.matchId, ctx.roundId, ctx.stepId, eliminated,
    roleOf eliminated ctx.impostors, max_votes, tie_size, flag⟩

/-- The `while` loop of `simulate_round`, with explicit fuel.  Each iteration:
advance the step id, vote, emit the vote rows, pick and remove the eliminated
player, recompute the win condition on the post-elimination pool and emit the
result row.  `none` models a numpy error or exhausted fuel. -/
def simulate_roundAux :
    Nat → VoteContext → List Nat → Nat → Rng →
      Option (List VoteRecord × List GameResultRecord × Rng)
  | 0, _, _, _, _ => none
  | fuel + 1, ctx, alive, s, g =>
    if loopGuard alive ctx.impostors then
      match choose_targets alive g with
      | none => none
      | some (targets, g1) =>
        let ctx1 := update_ctx ctx (s + 1)
        let votes1 := append_votes_rows ctx1 alive targets
        match pick_eliminated_from_targets targets g1 with
        | none => none
        | some (elim, mv, most, g2) =>
          let alive1 := alive.erase elim
          let row := append_game_result_row ctx1 elim mv most.length
            (impostors_win alive1 ctx1.impostors)
          match simulate_roundAux fuel ctx1 alive1 (s + 1) g2 with
          | none => none
          | some (vs, rs, g3) => some (votes1 ++ vs, row :: rs, g3)
    else
      some ([], [], g)

/-- `simulate_round`: run the loop from step id 0 on a copy of the player
pool.  Fuel `players.length + 1` is shown sufficient by the termination
theorem. -/
def simulate_round (ctx : VoteContext) (players : List Nat) (g : Rng) :
    Option (List VoteRecord × List GameResultRecord × Rng) :=
  simulate_roundAux (players.length + 1) ctx players 0 g

/-- One trace entry per executed step: the pool voted on, the sampled targets,
the emitted vote rows, the post-elimination pool and the emitted result row. -/
structure StepTrace where
  aliveBefore : List Nat
  targets : List Nat
  stepVotes : List VoteRecord
  aliveAfter : List Nat
  row : GameResultRecord
deriving DecidableEq

/-- Instrumented copy of `simulate_roundAux` recording, for each executed
step, the pools and rows of that step.  It follows the loop verbatim; the
correspondence with `simulate_roundAux` is proved below. -/
def roundTrace :
    Nat → VoteContext → List Nat → Nat → Rng →
      Option (List StepTrace × Rng)
  | 0, _, _, _, _ => none
  | fuel + 1, ctx, alive, s, g =>
    if loopGuard alive ctx.impostors then
      match choose_targets alive g with
      | none => none
      | some (targets, g1) =>
        let ctx1 := update_ctx ctx (s + 1)
        let votes1 := append_votes_rows ctx1 alive targets
        match pick_eliminated_from_targets targets g1 with
        | none => none
        | some (elim, mv, most, g2) =>
          let alive1 := alive.erase elim
          let row := append_game_result_row ctx1 elim mv most.length
            (impostors_win alive1 ctx1.impostors)
          match roundTrace fuel ctx1 alive1 (s + 1) g2 with
          | none => none
          | some (tr, g3) => some (⟨alive, targets, votes1, alive1, row⟩ :: tr, g3)
    else
      some ([], g)

/-- Invariants of one executed step, tying its rows to its pools. -/
def EntryInv (imps : List Nat) (e : StepTrace) : Prop :=
  loopGuard e.aliveBefore imps = true ∧
  List.Forall₂ (fun v t => t ∈ e.aliveBefore ∧ t ≠ v) e.aliveBefore e.targets ∧
  (∀ t ∈ e.targets, t ∈ e.aliveBefore) ∧
  e.row.eliminated ∈ most_voted_of e.targets ∧
  e.row.max_votes = max_votes_of e.targets ∧
  e.row.tie_size = (most_voted_of e.targets).length ∧
  e.aliveAfter = e.aliveBefore.erase e.row.eliminated ∧
  e.row.impostors_wins = impostors_win e.aliveAfter imps ∧
  e.stepVotes.map (fun r => r.voter) = e.aliveBefore ∧
  e.stepVotes.length = e.aliveBefore.length ∧
  (∀ r ∈ e.stepVotes, r.voter ≠ r.target ∧ r.stepId = e.row.stepId)

/-- `simulate_match` round loop: for each round id, draw a fresh impostor
from the full pool and run `simulate_round`, concatenating the sinks. -/
def simulate_rounds (P R matchId : Nat) (players : List Nat) :
    Nat → Nat → Rng → Option (List VoteRecord × List GameResultRecord × Rng)
  | 0, _, g => some ([], [], g)
  | n + 1, roundId, g =>
    match choice players g with
    | none => none
    | some (imp, g1) =>
      match simulate_round ⟨P, R, matchId, roundId, 0, [imp]⟩ players g1 with
      | none => none
      | some (v, r, g2) =>
        match simulate_rounds P R matchId players n (roundId + 1) g2 with
        | none => none
        | some (v2, r2, g3) => some (v ++ v2, r ++ r2, g3)

/-- `simulate_match(P, R, match_id, ...)`: R rounds over the reset pool
`list(range(P))`, round ids 1..R. -/
def simulate_match (P R matchId : Nat) (g : Rng) :
    Option (List VoteRecord × List GameResultRecord × Rng) :=
  simulate_rounds P R matchId (List.range P) R 1 g

/-- Innermost sweep loop: `n` match replicates of one (P, R) cell, with the
global match counter threaded through (returned alongside). -/
def sweep_matches (P R : Nat) :
    Nat → Nat → Rng → Option (List VoteRecord × List GameResultRecord × Nat × Rng)
  | 0, matchId, g => some ([], [], matchId, g)
  | n + 1, matchId, g =>
    match simulate_match P R (matchId + 1) g with
    | none => none
    | some (v, r, g1) =>
      match sweep_matches P R n (matchId + 1) g1 with
      | none => none
      | some (v2, r2, mid2, g2) => some (v ++ v2, r ++ r2, mid2, g2)

/-- Middle sweep loop over the R values. -/
def sweep_R (P : Nat) :
    List Nat → Nat → Nat → Rng →
      Option (List VoteRecord × List GameResultRecord × Nat × Rng)
  | [], _, matchId, g => some ([], [], matchId, g)
  | R :: Rs, n, matchId, g =>
    match sweep_matches P R n matchId g with
    | none => none
    | some (v, r, mid1, g1) =>
      match sweep_R P Rs n mid1 g1 with
      | none => none
      | some (v2, r2, mid2, g2) => some (v ++ v2, r ++ r2, mid2, g2)

/-- Outer sweep loop over the P values. -/
def sweep_P :
    List Nat → List Nat → Nat → Nat → Rng →
      Option (List VoteRecord × List GameResultRecord × Nat × Rng)
  | [], _, _, matchId, g => some ([], [], matchId, g)
  | P :: Ps, Rs, n, matchId, g =>
    match sweep_R P Rs n matchId g with
    | none => none
    | some (v, r, mid1, g1) =>
      match sweep_P Ps Rs n mid1 g1 with
      | none => none
      | some (v2, r2, mid2, g2) => some (v ++ v2, r ++ r2, mid2, g2)

/-- `run_complete_simulation`: the full sweep from match id 0, returning the
two record lists that become the dataframes. -/
def run_complete_simulation (params : SimParams) (g : Rng) :
    Option (List VoteRecord × List GameResultRecord) :=
  match sweep_P params.P_values params.R_values params.n_matches 0 g with
  | none => none
  | some (v, r, _, _) => some (v, r)

/-- The (P, R) cell of each match of the sweep, in match-id order. -/
def sweepCells (params : SimParams) : List (Nat × Nat) :=
  params.P_values.flatMap (fun P =>
    params.R_values.flatMap (fun R =>
      List.replicate params.n_matches (P, R)))

/-- Well-formed block of result rows for one round: nonempty, constant match
and round ids, and step ids 1..k with no gaps. -/
def roundBlockOK (mid rid : Nat) (b : List GameResultRecord) : Prop :=
  b ≠ [] ∧ (∀ r ∈ b, r.matchId = mid ∧ r.roundId = rid) ∧
    b.map (fun r => r.stepId) = List.range' 1 b.length

/-- Well-formed consecutive round blocks of one match, starting at `rid`. -/
def matchBlocksOK (mid : Nat) : Nat → List (List GameResultRecord) → Prop
  | _, [] => True
  | rid, b :: bs => roundBlockOK mid rid b ∧ matchBlocksOK mid (rid + 1) bs

/-- Well-formed result rows of one match: a concatenation of R round blocks
with round ids 1..R. -/
def matchOK (mid R : Nat) (res : List GameResultRecord) : Prop :=
  ∃ bs, res = bs.flatten ∧ bs.length = R ∧ matchBlocksOK mid 1 bs

/-- Well-formed result rows of a sweep suffix: one match block per cell, with
match ids increasing one by one from `mid + 1`. -/
def sweepOK : Nat → List (Nat × Nat) → List GameResultRecord → Prop
  | _, [], res => res = []
  | mid, c :: cs, res =>
    ∃ mres rest, res = mres ++ rest ∧ matchOK (mid + 1) c.2 mres ∧
      sweepOK (mid + 1) cs rest

end GameSim

namespace GameSim

lemma choice_mem {l : List Nat} {g : Rng} {x : Nat} {g1 : Rng}
    (h : choice l g = some (x, g1)) : x ∈ l ∧ g1 = g.next.2 := by
  unfold choice at h
  by_cases hl : l = []
  · rw [dif_pos hl] at h; cases h
  · rw [dif_neg hl] at h
    injection h with h
    injection h with h1 h2
    exact ⟨h1 ▸ List.get_mem _ _ _, h2.symm⟩

lemma choice_some {l : List Nat} (hl : l ≠ []) (g : Rng) :
    ∃ x g1, choice l g = some (x, g1) ∧ x ∈ l := by
  unfold choice
  rw [dif_neg hl]
  exact ⟨_, _, rfl, List.get_mem _ _ _⟩


lemma chooseTargetsFrom_forall₂ {alive : List Nat} :
    ∀ {voters : List Nat} {g : Rng} {ts : List Nat} {g1 : Rng},
      chooseTargetsFrom alive voters g = some (ts, g1) →
      List.Forall₂ (fun v t => t ∈ alive ∧ t ≠ v) voters ts := by
  intro voters
  induction voters with
  | nil =>
    intro g ts g1 h
    injection h with h
    injection h with h1 _
    exact h1 ▸ List.Forall₂.nil
  | cons v vs ih =>
    intro g ts g1 h
    unfold chooseTargetsFrom at h
    cases hc : choice (alive.filter (fun p => p ≠ v)) g with
    | none => simp only [hc] at h; exact Option.noConfusion h
    | some p =>
      obtain ⟨t, gA⟩ := p
      simp only [hc] at h
      cases hr : chooseTargetsFrom alive vs gA with
      | none => simp only [hr] at h; exact Option.noConfusion h
      | some q =>
        obtain ⟨ts', gB⟩ := q
        simp only [hr] at h
        injection h with h
        injection h with h1 h2
        have hmem := (choice_mem hc).1
        rw [List.mem_filter] at hmem
        obtain ⟨hta, htv⟩ := hmem
        refine h1 ▸ List.Forall₂.cons ⟨hta, by simpa using htv⟩ (ih hr)

lemma chooseTargetsFrom_some {alive : List Nat}
    (hne : ∀ v : Nat, alive.filter (fun p => p ≠ v) ≠ []) :
    ∀ (voters : List Nat) (g : Rng),
      ∃ ts g1, chooseTargetsFrom alive voters g = some (ts, g1) := by
  intro voters
  induction voters with
  | nil => intro g; exact ⟨[], g, rfl⟩
  | cons v vs ih =>
    intro g
    obtain ⟨t, gA, hc, _⟩ := choice_some (hne v) g
    obtain ⟨ts, gB, hr⟩ := ih gA
    exact ⟨t :: ts, gB, by unfold chooseTargetsFrom; simp only [hc, hr]⟩

lemma mem_firstOccurrences {x : Nat} : ∀ {l : List Nat},
    x ∈ firstOccurrences l ↔ x ∈ l := by
  intro l
  induction l with
  | nil => simp [firstOccurrences]
  | cons a l ih =>
    simp only [firstOccurrences, List.mem_cons, List.mem_filter, ih]
    by_cases hxa : x = a
    · simp [hxa]
    · simp [hxa]

lemma foldr_max_mem : ∀ {l : List Nat}, l ≠ [] → l.foldr max 0 ∈ l := by
  intro l
  induction l with
  | nil => intro h; exact absurd rfl h
  | cons a l ih =>
    intro _
    cases l with
    | nil => simp
    | cons b l' =>
      rcases max_choice a ((b :: l').foldr max 0) with hm | hm
      · simp only [List.foldr_cons] at hm ⊢
        rw [hm]; exact List.mem_cons_self _ _
      · simp only [List.foldr_cons] at hm ⊢
        rw [hm]
        exact List.mem_cons_of_mem _ (ih (by simp))

lemma le_foldr_max {x : Nat} : ∀ {l : List Nat}, x ∈ l → x ≤ l.foldr max 0 := by
  intro l
  induction l with
  | nil => intro h; cases h
  | cons a l ih =>
    intro hx
    rcases List.mem_cons.mp hx with rfl | hx
    · exact Nat.le_max_left _ _
    · exact Nat.le_trans (ih hx) (Nat.le_max_right _ _)

lemma max_votes_attained {targets : List Nat} (h : targets ≠ []) :
    ∃ p ∈ targets, targets.count p = max_votes_of targets := by
  have hmem : max_votes_of targets ∈ targets.map (fun p => targets.count p) :=
    foldr_max_mem (by simpa using h)
  obtain ⟨p, hp, hc⟩ := List.mem_map.mp hmem
  exact ⟨p, hp, hc⟩

lemma count_le_max_votes {targets : List Nat} {t : Nat} (h : t ∈ targets) :
    targets.count t ≤ max_votes_of targets :=
  le_foldr_max (List.mem_map.mpr ⟨t, h, rfl⟩)

lemma most_voted_ne_nil {targets : List Nat} (h : targets ≠ []) :
    most_voted_of targets ≠ [] := by
  obtain ⟨p, hp, hc⟩ := max_votes_attained h
  have : p ∈ most_voted_of targets := by
    unfold most_voted_of
    rw [List.mem_filter]
    exact ⟨mem_firstOccurrences.mpr hp, by simpa using hc⟩
  intro hnil
  rw [hnil] at this
  cases this

lemma most_voted_subset {targets : List Nat} :
    ∀ x ∈ most_voted_of targets, x ∈ targets := by
  intro x hx
  unfold most_voted_of at hx
  rw [List.mem_filter] at hx
  exact mem_firstOccurrences.mp hx.1

lemma one_le_max_votes {targets : List Nat} (h : targets ≠ []) :
    1 ≤ max_votes_of targets := by
  obtain ⟨p, hp, hc⟩ := max_votes_attained h
  have : 0 < targets.count p := List.count_pos_iff.mpr hp
  omega

lemma pick_eliminated_inv {targets : List Nat} {g : Rng}
    {e mv : Nat} {most : List Nat} {g1 : Rng}
    (h : pick_eliminated_from_targets targets g = some (e, mv, most, g1)) :
    e ∈ most_voted_of targets ∧ mv = max_votes_of targets ∧
      most = most_voted_of targets := by
  unfold pick_eliminated_from_targets at h
  cases hc : choice (most_voted_of targets) g with
  | none => simp only [hc] at h; exact Option.noConfusion h
  | some p =>
    obtain ⟨e', gA⟩ := p
    simp only [hc] at h
    injection h with h
    injection h with h1 h2
    injection h2 with h2 h3
    injection h3 with h3 h4
    exact ⟨h1 ▸ (choice_mem hc).1, h2.symm, h3.symm⟩

lemma pick_eliminated_some {targets : List Nat} (h : targets ≠ []) (g : Rng) :
    ∃ e g1, pick_eliminated_from_targets targets g =
      some (e, max_votes_of targets, most_voted_of targets, g1) := by
  obtain ⟨e, g1, hc, _⟩ := choice_some (most_voted_ne_nil h) g
  exact ⟨e, g1, by unfold pick_eliminated_from_targets; simp only [hc]⟩


lemma nAlive_partition (alive imps : List Nat) :
    nAliveImp alive imps + nAliveCiv alive imps = alive.toFinset.card := by
  unfold nAliveImp nAliveCiv
  exact Finset.filter_card_add_filter_neg_card_eq_card _

lemma loopGuard_facts {alive imps : List Nat} (h : loopGuard alive imps = true) :
    1 ≤ nAliveImp alive imps ∧ nAliveImp alive imps < nAliveCiv alive imps := by
  unfold loopGuard impostors_win at h
  simp only [Bool.and_eq_true, Bool.not_eq_true', decide_eq_true_eq,
    decide_eq_false_iff_not, Nat.not_le] at h
  omega

lemma loopGuard_card {alive imps : List Nat} (h : loopGuard alive imps = true) :
    3 ≤ alive.toFinset.card := by
  obtain ⟨h1, h2⟩ := loopGuard_facts h
  have := nAlive_partition alive imps
  omega

lemma loopGuard_length {alive imps : List Nat} (h : loopGuard alive imps = true) :
    3 ≤ alive.length :=
  le_trans (loopGuard_card h) (List.toFinset_card_le alive)

lemma loopGuard_filter_ne {alive imps : List Nat}
    (h : loopGuard alive imps = true) (v : Nat) :
    alive.filter (fun p => p ≠ v) ≠ [] := by
  have hcard : 1 < alive.toFinset.card := lt_of_lt_of_le (by norm_num) (loopGuard_card h)
  obtain ⟨b, hb, hbv⟩ := Finset.exists_ne_of_one_lt_card hcard v
  intro hnil
  have : b ∈ alive.filter (fun p => p ≠ v) :=
    List.mem_filter.mpr ⟨List.mem_toFinset.mp hb, by simpa using hbv⟩
  rw [hnil] at this
  cases this

lemma erase_sole_impostor_civ {alive : List Nat} {i : Nat} :
    nAliveCiv (alive.erase i) [i] = nAliveCiv alive [i] := by
  unfold nAliveCiv
  congr 1
  apply Finset.ext
  intro x
  simp only [Finset.mem_filter, List.mem_toFinset, List.mem_singleton]
  constructor
  · intro ⟨hx, hxi⟩
    exact ⟨(List.mem_erase_of_ne hxi).mp hx, hxi⟩
  · intro ⟨hx, hxi⟩
    exact ⟨(List.mem_erase_of_ne hxi).mpr hx, hxi⟩

lemma erase_sole_impostor_imp {alive : List Nat} {i : Nat} :
    nAliveImp (alive.erase i) [i] ≤ 1 := by
  unfold nAliveImp
  have hsub : (alive.erase i).toFinset.filter (fun p => p ∈ [i]) ⊆ {i} := by
    intro x hx
    simp only [Finset.mem_filter, List.mem_singleton] at hx
    simp [hx.2]
  calc ((alive.erase i).toFinset.filter (fun p => p ∈ [i])).card
      ≤ ({i} : Finset Nat).card := Finset.card_le_card hsub
    _ = 1 := Finset.card_singleton i

lemma win_false_after_sole_impostor_eliminated {alive : List Nat} {i : Nat}
    (h : loopGuard alive [i] = true) :
    impostors_win (alive.erase i) [i] = false := by
  obtain ⟨h1, h2⟩ := loopGuard_facts h
  have hciv : nAliveCiv (alive.erase i) [i] = nAliveCiv alive [i] :=
    erase_sole_impostor_civ
  have himp : nAliveImp (alive.erase i) [i] ≤ 1 := erase_sole_impostor_imp
  unfold impostors_win
  simp only [decide_eq_false_iff_not, Nat.not_le]
  omega


lemma chooseTargetsFrom_subset {alive : List Nat} :
    ∀ {voters : List Nat} {g : Rng} {ts : List Nat} {g1 : Rng},
      chooseTargetsFrom alive voters g = some (ts, g1) →
      ∀ t ∈ ts, t ∈ alive := by
  intro voters
  induction voters with
  | nil =>
    intro g ts g1 h
    injection h with h
    injection h with h1 _
    intro t ht
    rw [← h1] at ht
    cases ht
  | cons v vs ih =>
    intro g ts g1 h
    unfold chooseTargetsFrom at h
    cases hc : choice (alive.filter (fun p => p ≠ v)) g with
    | none => simp only [hc] at h; exact Option.noConfusion h
    | some p =>
      obtain ⟨t, gA⟩ := p
      simp only [hc] at h
      cases hr : chooseTargetsFrom alive vs gA with
      | none => simp only [hr] at h; exact Option.noConfusion h
      | some q =>
        obtain ⟨ts', gB⟩ := q
        simp only [hr] at h
        injection h with h
        injection h with h1 h2
        intro x hx
        rw [← h1] at hx
        rcases List.mem_cons.mp hx with rfl | hx
        · exact (List.mem_filter.mp (choice_mem hc).1).1
        · exact ih hr x hx

lemma roundAux_eq_trace :
    ∀ (fuel : Nat) (ctx : VoteContext) (alive : List Nat) (s : Nat) (g : Rng),
      simulate_roundAux fuel ctx alive s g =
        (roundTrace fuel ctx alive s g).map
          (fun p => ((p.1.map StepTrace.stepVotes).flatten,
            p.1.map StepTrace.row, p.2)) := by
  intro fuel
  induction fuel with
  | zero => intro ctx alive s g; rfl
  | succ n ih =>
    intro ctx alive s g
    unfold simulate_roundAux roundTrace
    by_cases hg : loopGuard alive ctx.impostors = true
    · rw [if_pos hg, if_pos hg]
      cases hct : choose_targets alive g with
      | none => rfl
      | some p =>
        obtain ⟨targets, g1⟩ := p
        dsimp only
        cases hpk : pick_eliminated_from_targets targets g1 with
        | none => rfl
        | some q =>
          obtain ⟨elim, mv, most, g2⟩ := q
          dsimp only
          simp only [ih]
          cases htr : roundTrace n (update_ctx ctx (s + 1)) (alive.erase elim)
              (s + 1) g2 with
          | none => rfl
          | some tg => obtain ⟨tr, g3⟩ := tg; rfl
    · rw [if_neg hg, if_neg hg]
      rfl


lemma append_votes_rows_voters {ctx : VoteContext} {alive targets : List Nat}
    (hlen : alive.length ≤ targets.length) :
    (append_votes_rows ctx alive targets).map (fun r => r.voter) = alive := by
  unfold append_votes_rows
  rw [List.map_map]
  exact List.map_fst_zip alive targets hlen

lemma append_votes_rows_length {ctx : VoteContext} {alive targets : List Nat}
    (hlen : alive.length = targets.length) :
    (append_votes_rows ctx alive targets).length = alive.length := by
  unfold append_votes_rows
  rw [List.length_map, List.length_zip, hlen, Nat.min_self]

lemma append_votes_rows_mem {ctx : VoteContext} {alive targets : List Nat}
    {r : VoteRecord} (hr : r ∈ append_votes_rows ctx alive targets) :
    ∃ vt ∈ alive.zip targets, r =
      ⟨ctx.P, ctx.R, ctx.matchId, ctx.roundId, ctx.stepId, vt.1, vt.2,
        roleOf vt.1 ctx.impostors, roleOf vt.2 ctx.impostors⟩ := by
  unfold append_votes_rows at hr
  obtain ⟨vt, hvt, heq⟩ := List.mem_map.mp hr
  exact ⟨vt, hvt, heq.symm⟩

lemma roundTrace_entries :
    ∀ (fuel : Nat) (ctx : VoteContext) (alive : List Nat) (s : Nat) (g : Rng)
      (tr : List StepTrace) (gf : Rng),
      roundTrace fuel ctx alive s g = some (tr, gf) →
      ∀ e ∈ tr, EntryInv ctx.impostors e := by
  intro fuel
  induction fuel with
  | zero => intro ctx alive s g tr gf h; cases h
  | succ n ih =>
    intro ctx alive s g tr gf h
    unfold roundTrace at h
    by_cases hg : loopGuard alive ctx.impostors = true
    · rw [if_pos hg] at h
      cases hct : choose_targets alive g with
      | none => simp only [hct] at h; exact Option.noConfusion h
      | some p =>
        obtain ⟨targets, g1⟩ := p
        simp only [hct] at h
        cases hpk : pick_eliminated_from_targets targets g1 with
        | none => simp only [hpk] at h; exact Option.noConfusion h
        | some q =>
          obtain ⟨elim, mv, most, g2⟩ := q
          simp only [hpk] at h
          cases htr : roundTrace n (update_ctx ctx (s + 1)) (alive.erase elim)
              (s + 1) g2 with
          | none => simp only [htr] at h; exact Option.noConfusion h
          | some tg =>
            obtain ⟨tr', g3⟩ := tg
            simp only [htr] at h
            injection h with h
            injection h with h1 h2
            intro e he
            rw [← h1] at he
            have hf₂ := chooseTargetsFrom_forall₂ hct
            have hsub := chooseTargetsFrom_subset hct
            have hlen : alive.length = targets.length := hf₂.length_eq
            obtain ⟨helim, hmv, hmost⟩ := pick_eliminated_inv hpk
            rcases List.mem_cons.mp he with rfl | he
            · refine ⟨hg, hf₂, hsub, ?_, ?_, ?_, rfl, rfl, ?_, ?_, ?_⟩
              · exact helim
              · exact hmv
              · exact congrArg List.length hmost
              · exact append_votes_rows_voters (le_of_eq hlen)
              · exact append_votes_rows_length hlen
              · intro r hrv
                obtain ⟨vt, hvt, hreq⟩ := append_votes_rows_mem hrv
                have hrel : vt.2 ∈ alive ∧ vt.2 ≠ vt.1 :=
                  (List.forall₂_iff_zip.mp hf₂).2 (by
                    cases vt; exact hvt)
                constructor
                · rw [hreq]; exact (hrel.2.symm)
                · rw [hreq]; rfl
            · exact ih _ _ _ _ _ _ htr e he
    · rw [if_neg hg] at h
      injection h with h
      injection h with h1 _
      intro e he
      rw [← h1] at he
      cases he


lemma roundTrace_ids :
    ∀ (fuel : Nat) (ctx : VoteContext) (alive : List Nat) (s : Nat) (g : Rng)
      (tr : List StepTrace) (gf : Rng),
      roundTrace fuel ctx alive s g = some (tr, gf) →
      tr.map (fun e => e.row.stepId) = List.range' (s + 1) tr.length ∧
        ∀ e ∈ tr, e.row.matchId = ctx.matchId ∧ e.row.roundId = ctx.roundId := by
  intro fuel
  induction fuel with
  | zero => intro ctx alive s g tr gf h; cases h
  | succ n ih =>
    intro ctx alive s g tr gf h
    unfold roundTrace at h
    by_cases hg : loopGuard alive ctx.impostors = true
    · rw [if_pos hg] at h
      cases hct : choose_targets alive g with
      | none => simp only [hct] at h; exact Option.noConfusion h
      | some p =>
        obtain ⟨targets, g1⟩ := p
        simp only [hct] at h
        cases hpk : pick_eliminated_from_targets targets g1 with
        | none => simp only [hpk] at h; exact Option.noConfusion h
        | some q =>
          obtain ⟨elim, mv, most, g2⟩ := q
          simp only [hpk] at h
          cases htr : roundTrace n (update_ctx ctx (s + 1)) (alive.erase elim)
              (s + 1) g2 with
          | none => simp only [htr] at h; exact Option.noConfusion h
          | some tg =>
            obtain ⟨tr', g3⟩ := tg
            simp only [htr] at h
            injection h with h
            injection h with h1 h2
            obtain ⟨ihs, ihm⟩ := ih _ _ _ _ _ _ htr
            constructor
            · rw [← h1]
              simp only [List.map_cons, List.length_cons]
              rw [ihs]
              rfl
            · intro e he
              rw [← h1] at he
              rcases List.mem_cons.mp he with rfl | he
              · exact ⟨rfl, rfl⟩
              · exact ihm e he
    · rw [if_neg hg] at h
      injection h with h
      injection h with h1 _
      constructor
      · rw [← h1]; rfl
      · intro e he; rw [← h1] at he; cases he


lemma roundTrace_total :
    ∀ (fuel : Nat) (ctx : VoteContext) (alive : List Nat) (s : Nat) (g : Rng),
      alive.length < fuel →
      ∃ tr gf, roundTrace fuel ctx alive s g = some (tr, gf) ∧
        (tr = [] ∨ tr.length + 2 ≤ alive.length) := by
  intro fuel
  induction fuel with
  | zero => intro ctx alive s g h; omega
  | succ n ih =>
    intro ctx alive s g hfuel
    by_cases hg : loopGuard alive ctx.impostors = true
    · have hlen3 := loopGuard_length hg
      obtain ⟨ts, g1, hct⟩ :=
        chooseTargetsFrom_some (loopGuard_filter_ne hg) alive g
      have hct' : choose_targets alive g = some (ts, g1) := hct
      have hlen : alive.length = ts.length :=
        (chooseTargetsFrom_forall₂ hct).length_eq
      have hts : ts ≠ [] := by
        intro hnil
        rw [hnil] at hlen
        simp only [List.length_nil] at hlen
        omega
      obtain ⟨e, g2, hpk⟩ := pick_eliminated_some hts g1
      have helim : e ∈ alive := by
        have h1 := (pick_eliminated_inv hpk).1
        exact chooseTargetsFrom_subset hct e (most_voted_subset e h1)
      have herase : (alive.erase e).length = alive.length - 1 :=
        List.length_erase_of_mem helim
      have hlt : (alive.erase e).length < n := by omega
      obtain ⟨tr', g3, htr, hbound⟩ :=
        ih (update_ctx ctx (s + 1)) (alive.erase e) (s + 1) g2 hlt
      refine ⟨⟨alive, ts, append_votes_rows (update_ctx ctx (s + 1)) alive ts,
        alive.erase e,
        append_game_result_row (update_ctx ctx (s + 1)) e (max_votes_of ts)
          (most_voted_of ts).length
          (impostors_win (alive.erase e) (update_ctx ctx (s + 1)).impostors)⟩ :: tr',
        g3, ?_, ?_⟩
      · unfold roundTrace
        rw [if_pos hg]
        simp only [hct', hpk, htr]
      · right
        rcases hbound with rfl | hb
        · simp; omega
        · simp only [List.length_cons]; omega
    · exact ⟨[], g, by unfold roundTrace; rw [if_neg hg], Or.inl rfl⟩


lemma round_votes_results {fuel : Nat} {ctx : VoteContext} {alive : List Nat}
    {s : Nat} {g : Rng} {v : List VoteRecord} {res : List GameResultRecord}
    {gf : Rng} (h : simulate_roundAux fuel ctx alive s g = some (v, res, gf)) :
    (∀ r ∈ v, r.voter ≠ r.target) ∧
      (∀ r ∈ res, 1 ≤ r.max_votes ∧ 1 ≤ r.tie_size) := by
  rw [roundAux_eq_trace] at h
  cases htr : roundTrace fuel ctx alive s g with
  | none => rw [htr] at h; cases h
  | some p =>
    obtain ⟨tr, gf'⟩ := p
    rw [htr] at h
    injection h with h
    injection h with hv h
    injection h with hres hgf
    have hinv := roundTrace_entries _ _ _ _ _ _ _ htr
    constructor
    · intro r hr
      rw [← hv] at hr
      obtain ⟨l, hl, hrl⟩ := List.mem_flatten.mp hr
      obtain ⟨e, he, hle⟩ := List.mem_map.mp hl
      have := (hinv e he).2.2.2.2.2.2.2.2.2.2 r (hle ▸ hrl)
      exact this.1
    · intro r hr
      rw [← hres] at hr
      obtain ⟨e, he, hre⟩ := List.mem_map.mp hr
      obtain ⟨hgd, hf₂, hsub, helim, hmv, htie, hafter, hflag, hvmap, hvlen, hvr⟩ :=
        hinv e he
      have hlen3 : 3 ≤ e.aliveBefore.length := loopGuard_length hgd
      have hlen : e.aliveBefore.length = e.targets.length := hf₂.length_eq
      have hts : e.targets ≠ [] := by
        intro hnil
        rw [hnil] at hlen
        simp only [List.length_nil] at hlen
        omega
      subst hre
      constructor
      · rw [hmv]; exact one_le_max_votes hts
      · rw [htie]
        exact List.length_pos.mpr (most_voted_ne_nil hts)

lemma rounds_votes_results {P R mid : Nat} {players : List Nat} :
    ∀ {n rid : Nat} {g : Rng} {v : List VoteRecord}
      {res : List GameResultRecord} {gf : Rng},
      simulate_rounds P R mid players n rid g = some (v, res, gf) →
      (∀ r ∈ v, r.voter ≠ r.target) ∧
        (∀ r ∈ res, 1 ≤ r.max_votes ∧ 1 ≤ r.tie_size) := by
  intro n
  induction n with
  | zero =>
    intro rid g v res gf h
    injection h with h
    injection h with hv h
    injection h with hres _
    rw [← hv, ← hres]
    exact ⟨fun r hr => absurd hr (List.not_mem_nil r), fun r hr => absurd hr (List.not_mem_nil r)⟩
  | succ n ih =>
    intro rid g v res gf h
    unfold simulate_rounds at h
    cases hc : choice players g with
    | none => simp only [hc] at h; exact Option.noConfusion h
    | some p =>
      obtain ⟨imp, g1⟩ := p
      simp only [hc] at h
      cases hr : simulate_round ⟨P, R, mid, rid, 0, [imp]⟩ players g1 with
      | none => simp only [hr] at h; exact Option.noConfusion h
      | some q =>
        obtain ⟨v1, r1, g2⟩ := q
        simp only [hr] at h
        cases hs : simulate_rounds P R mid players n (rid + 1) g2 with
        | none => simp only [hs] at h; exact Option.noConfusion h
        | some w =>
          obtain ⟨v2, r2, g3⟩ := w
          simp only [hs] at h
          injection h with h
          injection h with hv h
          injection h with hres _
          obtain ⟨hv1, hr1⟩ := round_votes_results hr
          obtain ⟨hv2, hr2⟩ := ih hs
          rw [← hv, ← hres]
          constructor
          · intro r hrm
            rcases List.mem_append.mp hrm with hm | hm
            · exact hv1 r hm
            · exact hv2 r hm
          · intro r hrm
            rcases List.mem_append.mp hrm with hm | hm
            · exact hr1 r hm
            · exact hr2 r hm


lemma sweep_matches_votes_results {P R : Nat} :
    ∀ {n mid : Nat} {g : Rng} {v : List VoteRecord}
      {res : List GameResultRecord} {mid2 : Nat} {gf : Rng},
      sweep_matches P R n mid g = some (v, res, mid2, gf) →
      (∀ r ∈ v, r.voter ≠ r.target) ∧
        (∀ r ∈ res, 1 ≤ r.max_votes ∧ 1 ≤ r.tie_size) := by
  intro n
  induction n with
  | zero =>
    intro mid g v res mid2 gf h
    injection h with h
    injection h with hv h
    injection h with hres _
    rw [← hv, ← hres]
    exact ⟨fun r hr => absurd hr (List.not_mem_nil r),
      fun r hr => absurd hr (List.not_mem_nil r)⟩
  | succ n ih =>
    intro mid g v res mid2 gf h
    unfold sweep_matches at h
    cases hm : simulate_match P R (mid + 1) g with
    | none => simp only [hm] at h; exact Option.noConfusion h
    | some q =>
      obtain ⟨v1, r1, g1⟩ := q
      simp only [hm] at h
      cases hs : sweep_matches P R n (mid + 1) g1 with
      | none => simp only [hs] at h; exact Option.noConfusion h
      | some w =>
        obtain ⟨v2, r2, m2, g2⟩ := w
        simp only [hs] at h
        injection h with h
        injection h with hv h
        injection h with hres _
        obtain ⟨hv1, hr1⟩ := rounds_votes_results hm
        obtain ⟨hv2, hr2⟩ := ih hs
        rw [← hv, ← hres]
        constructor
        · intro r hrm
          rcases List.mem_append.mp hrm with hmem | hmem
          · exact hv1 r hmem
          · exact hv2 r hmem
        · intro r hrm
          rcases List.mem_append.mp hrm with hmem | hmem
          · exact hr1 r hmem
          · exact hr2 r hmem

lemma sweep_R_votes_results {P : Nat} :
    ∀ {Rs : List Nat} {n mid : Nat} {g : Rng} {v : List VoteRecord}
      {res : List GameResultRecord} {mid2 : Nat} {gf : Rng},
      sweep_R P Rs n mid g = some (v, res, mid2, gf) →
      (∀ r ∈ v, r.voter ≠ r.target) ∧
        (∀ r ∈ res, 1 ≤ r.max_votes ∧ 1 ≤ r.tie_size) := by
  intro Rs
  induction Rs with
  | nil =>
    intro n mid g v res mid2 gf h
    injection h with h
    injection h with hv h
    injection h with hres _
    rw [← hv, ← hres]
    exact ⟨fun r hr => absurd hr (List.not_mem_nil r),
      fun r hr => absurd hr (List.not_mem_nil r)⟩
  | cons R Rs ih =>
    intro n mid g v res mid2 gf h
    unfold sweep_R at h
    cases hm : sweep_matches P R n mid g with
    | none => simp only [hm] at h; exact Option.noConfusion h
    | some q =>
      obtain ⟨v1, r1, m1, g1⟩ := q
      simp only [hm] at h
      cases hs : sweep_R P Rs n m1 g1 with
      | none => simp only [hs] at h; exact Option.noConfusion h
      | some w =>
        obtain ⟨v2, r2, m2, g2⟩ := w
        simp only [hs] at h
        injection h with h
        injection h with hv h
        injection h with hres _
        obtain ⟨hv1, hr1⟩ := sweep_matches_votes_results hm
        obtain ⟨hv2, hr2⟩ := ih hs
        rw [← hv, ← hres]
        constructor
        · intro r hrm
          rcases List.mem_append.mp hrm with hmem | hmem
          · exact hv1 r hmem
          · exact hv2 r hmem
        · intro r hrm
          rcases List.mem_append.mp hrm with hmem | hmem
          · exact hr1 r hmem
          · exact hr2 r hmem

lemma sweep_P_votes_results :
    ∀ {Ps Rs : List Nat} {n mid : Nat} {g : Rng} {v : List VoteRecord}
      {res : List GameResultRecord} {mid2 : Nat} {gf : Rng},
      sweep_P Ps Rs n mid g = some (v, res, mid2, gf) →
      (∀ r ∈ v, r.voter ≠ r.target) ∧
        (∀ r ∈ res, 1 ≤ r.max_votes ∧ 1 ≤ r.tie_size) := by
  intro Ps
  induction Ps with
  | nil =>
    intro Rs n mid g v res mid2 gf h
    injection h with h
    injection h with hv h
    injection h with hres _
    rw [← hv, ← hres]
    exact ⟨fun r hr => absurd hr (List.not_mem_nil r),
      fun r hr => absurd hr (List.not_mem_nil r)⟩
  | cons P Ps ih =>
    intro Rs n mid g v res mid2 gf h
    unfold sweep_P at h
    cases hm : sweep_R P Rs n mid g with
    | none => simp only [hm] at h; exact Option.noConfusion h
    | some q =>
      obtain ⟨v1, r1, m1, g1⟩ := q
      simp only [hm] at h
      cases hs : sweep_P Ps Rs n m1 g1 with
      | none => simp only [hs] at h; exact Option.noConfusion h
      | some w =>
        obtain ⟨v2, r2, m2, g2⟩ := w
        simp only [hs] at h
        injection h with h
        injection h with hv h
        injection h with hres _
        obtain ⟨hv1, hr1⟩ := sweep_R_votes_results hm
        obtain ⟨hv2, hr2⟩ := ih hs
        rw [← hv, ← hres]
        constructor
        · intro r hrm
          rcases List.mem_append.mp hrm with hmem | hmem
          · exact hv1 r hmem
          · exact hv2 r hmem
        · intro r hrm
          rcases List.mem_append.mp hrm with hmem | hmem
          · exact hr1 r hmem
          · exact hr2 r hmem

lemma run_votes_results {params : SimParams} {g : Rng} {v : List VoteRecord}
    {res : List GameResultRecord}
    (h : run_complete_simulation params g = some (v, res)) :
    (∀ r ∈ v, r.voter ≠ r.target) ∧
      (∀ r ∈ res, 1 ≤ r.max_votes ∧ 1 ≤ r.tie_size) := by
  unfold run_complete_simulation at h
  cases hs : sweep_P params.P_values params.R_values params.n_matches 0 g with
  | none => simp only [hs] at h; exact Option.noConfusion h
  | some w =>
    obtain ⟨v1, r1, m1, g1⟩ := w
    simp only [hs] at h
    injection h with h
    injection h with hv hres
    rw [← hv, ← hres]
    exact sweep_P_votes_results hs


lemma round_of_guard_false {ctx : VoteContext} {alive : List Nat} (g : Rng)
    (hg : loopGuard alive ctx.impostors = false) :
    simulate_round ctx alive g = some ([], [], g) := by
  unfold simulate_round simulate_roundAux
  rw [if_neg (by rw [hg]; exact Bool.false_ne_true)]

lemma guard_false_pair {i : Nat} (hi : i ∈ ([0, 1] : List Nat)) :
    loopGuard [0, 1] [i] = false := by
  rcases List.mem_cons.mp hi with rfl | hi
  · decide
  · rcases List.mem_cons.mp hi with rfl | hi
    · decide
    · cases hi

lemma guard_false_single {i : Nat} (hi : i ∈ ([0] : List Nat)) :
    loopGuard [0] [i] = false := by
  rcases List.mem_cons.mp hi with rfl | hi
  · decide
  · cases hi


lemma degenerate_run_empty {P : Nat} (hP : List.range P ≠ [])
    (hguard : ∀ i ∈ List.range P, loopGuard (List.range P) [i] = false)
    (g : Rng) :
    run_complete_simulation ⟨[P], [1], 1, 0⟩ g = some ([], []) := by
  obtain ⟨i, g1, hc, hi⟩ := choice_some hP g
  have hround : simulate_round ⟨P, 1, 1, 1, 0, [i]⟩ (List.range P) g1 =
      some ([], [], g1) := round_of_guard_false g1 (hguard i hi)
  have hrounds : simulate_rounds P 1 1 (List.range P) 1 1 g = some ([], [], g1) := by
    unfold simulate_rounds
    simp only [hc, hround]
    rfl
  have hmatch : simulate_match P 1 1 g = some ([], [], g1) := hrounds
  have hsm : sweep_matches P 1 1 0 g = some ([], [], 1, g1) := by
    unfold sweep_matches
    rw [show (0 : Nat) + 1 = 1 from rfl]
    simp only [hmatch]
    rfl
  have hsR : sweep_R P [1] 1 0 g = some ([], [], 1, g1) := by
    unfold sweep_R
    simp only [hsm]
    rfl
  have hsP : sweep_P [P] [1] 1 0 g = some ([], [], 1, g1) := by
    unfold sweep_P
    simp only [hsR]
    rfl
  unfold run_complete_simulation
  simp only [hsP]


/-- C1 counterexample: for the swept configuration P=2, R=1 (one match,
stream constantly 0) the code emits no vote rows and no game-result rows at
all, refuting the claim that the round resolves in exactly 1 step with a
recorded 1-1 tie of tie_size 2. -/
theorem C1_counterexample :
    run_complete_simulation ⟨[2], [1], 1, 0⟩ ⟨fun _ => 0, 0⟩ = some ([], []) :=
  degenerate_run_empty (by decide) (by decide) ⟨fun _ => 0, 0⟩

/-- C1 (amended): for P=2, R=1 with one impostor, the parity win-condition
(1 impostor ≥ 1 civilian) already holds before any vote, so the round
resolves in 0 steps for every random stream: no VoteRecord and no
GameResultRecord is emitted. -/
theorem C1_amended_zero_steps (g : Rng) :
    run_complete_simulation ⟨[2], [1], 1, 0⟩ g = some ([], []) :=
  degenerate_run_empty (by decide) (by decide) g

/-- C2 (code evaluated at the failing input): for the invalid configuration
P=1 (< 2) the code does not fail fast — for every random stream it runs to
completion without any error and silently returns two empty record lists;
no InvalidConfiguration validation exists in `run_complete_simulation`. -/
theorem C2_invalid_config_not_rejected (g : Rng) :
    run_complete_simulation ⟨[1], [1], 1, 0⟩ g = some ([], []) :=
  degenerate_run_empty (by decide) (by decide) g

/-- C4: determinism — two executions of the complete simulation with equal
seeds (equal stream and cursor) produce identical vote-record and
game-result-record sequences; the simulation reads no other state. -/
theorem C4_determinism (params : SimParams) (g1 g2 : Rng)
    (hidx : g1.idx = g2.idx) (hstream : ∀ n, g1.stream n = g2.stream n) :
    run_complete_simulation params g1 = run_complete_simulation params g2 := by
  obtain ⟨s1, i1⟩ := g1
  obtain ⟨s2, i2⟩ := g2
  have hs : s1 = s2 := funext hstream
  have hi : i1 = i2 := hidx
  rw [hs, hi]

/-- C4 witness at a concrete seed and parameter set. -/
theorem C4_determinism_witness :
    run_complete_simulation ⟨[3], [1], 1, 0⟩ ⟨fun _ => 0, 0⟩ =
      run_complete_simulation ⟨[3], [1], 1, 0⟩ ⟨fun _ => 0, 0⟩ :=
  C4_determinism ⟨[3], [1], 1, 0⟩ ⟨fun _ => 0, 0⟩ ⟨fun _ => 0, 0⟩ rfl
    (fun _ => rfl)

/-- C5: every round terminates — with fuel `players.length + 1` the loop
returns (so the `while` loop needs at most that many iterations), the round
performs at most P-1 steps, each executed step removes exactly one player
from the alive pool, and the post-elimination pool is never empty. -/
theorem C5_round_termination (ctx : VoteContext) (players : List Nat) (g : Rng) :
    ∃ tr gf, roundTrace (players.length + 1) ctx players 0 g = some (tr, gf) ∧
      simulate_round ctx players g =
        some ((tr.map StepTrace.stepVotes).flatten, tr.map StepTrace.row, gf) ∧
      tr.length ≤ players.length - 1 ∧
      ∀ e ∈ tr, e.aliveAfter.length + 1 = e.aliveBefore.length ∧
        e.aliveAfter ≠ [] := by
  obtain ⟨tr, gf, htr, hbound⟩ :=
    roundTrace_total (players.length + 1) ctx players 0 g (Nat.lt_succ_self _)
  have hinv := roundTrace_entries _ _ _ _ _ _ _ htr
  refine ⟨tr, gf, htr, ?_, ?_, ?_⟩
  · unfold simulate_round
    rw [roundAux_eq_trace, htr]
    rfl
  · rcases hbound with rfl | hb
    · simp
    · omega
  · intro e he
    obtain ⟨hgd, hf₂, hsub, helim, _, _, hafter, _, _, _, _⟩ := hinv e he
    have hmem : e.row.eliminated ∈ e.aliveBefore :=
      hsub _ (most_voted_subset _ helim)
    have hlen3 : 3 ≤ e.aliveBefore.length := loopGuard_length hgd
    have herase : (e.aliveBefore.erase e.row.eliminated).length =
        e.aliveBefore.length - 1 := List.length_erase_of_mem hmem
    constructor
    · rw [hafter]; omega
    · have hpos : 0 < e.aliveAfter.length := by rw [hafter]; omega
      exact List.length_pos.mp hpos

/-- C6: the voting step is gated by the loop guard, and whenever the guard
holds the alive pool has at least 2 players and target selection succeeds
for every voter — the empty-candidate error branch is unreachable. -/
theorem C6_voting_step_guarded (alive imps : List Nat) (g : Rng)
    (h : loopGuard alive imps = true) :
    2 ≤ alive.length ∧ (choose_targets alive g).isSome = true := by
  refine ⟨le_trans (by norm_num) (loopGuard_length h), ?_⟩
  obtain ⟨ts, g1, hct⟩ := chooseTargetsFrom_some (loopGuard_filter_ne h) alive g
  have hct' : choose_targets alive g = some (ts, g1) := hct
  rw [hct']
  rfl

/-- C6 witness: a concrete guarded pool. -/
theorem C6_voting_step_guarded_witness :
    2 ≤ ([0, 1, 2] : List Nat).length ∧
      (choose_targets [0, 1, 2] ⟨fun _ => 0, 0⟩).isSome = true :=
  C6_voting_step_guarded [0, 1, 2] [0] ⟨fun _ => 0, 0⟩ (by decide)


/-- C3: every emitted GameResultRecord of a round stores exactly the
win-condition recomputed on the post-elimination alive pool of its step, and
when the round's impostor set is the singleton eliminated at that step the
stored flag is false. -/
theorem C3_win_flag_post_elimination (fuel : Nat) (ctx : VoteContext)
    (alive : List Nat) (s : Nat) (g : Rng) (v : List VoteRecord)
    (res : List GameResultRecord) (gf : Rng) (tr : List StepTrace) (gt : Rng)
    (haux : simulate_roundAux fuel ctx alive s g = some (v, res, gf))
    (htr : roundTrace fuel ctx alive s g = some (tr, gt)) :
    res = tr.map StepTrace.row ∧
    ∀ e ∈ tr, e.row.impostors_wins = impostors_win e.aliveAfter ctx.impostors ∧
      ∀ i, ctx.impostors = [i] → e.row.eliminated = i →
        e.row.impostors_wins = false := by
  have hinv := roundTrace_entries _ _ _ _ _ _ _ htr
  constructor
  · rw [roundAux_eq_trace, htr] at haux
    injection haux with h
    injection h with h1 h2
    injection h2 with h2 _
    exact h2.symm
  · intro e he
    obtain ⟨hgd, _, _, _, _, _, hafter, hflag, _, _, _⟩ := hinv e he
    refine ⟨hflag, ?_⟩
    intro i hImps hElim
    rw [hflag, hafter, hElim, hImps]
    exact win_false_after_sole_impostor_eliminated (hImps ▸ hgd)

/-- C3 witness: a concrete one-step round (P=3, impostor 0 eliminated). -/
theorem C3_win_flag_post_elimination_witness :
    ([(⟨3,1,1,1,1,0,"impostor",2,1,false⟩ : GameResultRecord)] =
      ([⟨[0,1,2],[1,0,0],
        [⟨3,1,1,1,1,0,1,"impostor","civil"⟩,
         ⟨3,1,1,1,1,1,0,"civil","impostor"⟩,
         ⟨3,1,1,1,1,2,0,"civil","impostor"⟩],
        [1,2],
        ⟨3,1,1,1,1,0,"impostor",2,1,false⟩⟩] : List StepTrace).map
          StepTrace.row) ∧
    (⟨3,1,1,1,1,0,"impostor",2,1,false⟩ : GameResultRecord).impostors_wins =
      false :=
  ⟨(C3_win_flag_post_elimination 4 ⟨3,1,1,1,0,[0]⟩ [0,1,2] 0 ⟨fun _ => 0, 0⟩
      _ _ ⟨fun _ => 0, 4⟩ _ ⟨fun _ => 0, 4⟩ rfl rfl).1,
    ((C3_win_flag_post_elimination 4 ⟨3,1,1,1,0,[0]⟩ [0,1,2] 0 ⟨fun _ => 0, 0⟩
      _ _ ⟨fun _ => 0, 4⟩ _ ⟨fun _ => 0, 4⟩ rfl rfl).2
        ⟨[0,1,2],[1,0,0],
          [⟨3,1,1,1,1,0,1,"impostor","civil"⟩,
           ⟨3,1,1,1,1,1,0,"civil","impostor"⟩,
           ⟨3,1,1,1,1,2,0,"civil","impostor"⟩],
          [1,2],
          ⟨3,1,1,1,1,0,"impostor",2,1,false⟩⟩
        (List.mem_singleton.mpr rfl)).2 0 rfl rfl⟩

/-- C7: the vote rows of each executed step are exactly one per alive player
of that step, in alive-pool order (their voter column is the pool itself). -/
theorem C7_vote_rows_per_step (fuel : Nat) (ctx : VoteContext)
    (alive : List Nat) (s : Nat) (g : Rng) (v : List VoteRecord)
    (res : List GameResultRecord) (gf : Rng) (tr : List StepTrace) (gt : Rng)
    (haux : simulate_roundAux fuel ctx alive s g = some (v, res, gf))
    (htr : roundTrace fuel ctx alive s g = some (tr, gt)) :
    v = (tr.map StepTrace.stepVotes).flatten ∧
    ∀ e ∈ tr, e.stepVotes.length = e.aliveBefore.length ∧
      e.stepVotes.map (fun r => r.voter) = e.aliveBefore := by
  have hinv := roundTrace_entries _ _ _ _ _ _ _ htr
  constructor
  · rw [roundAux_eq_trace, htr] at haux
    injection haux with h
    injection h with h1 _
    exact h1.symm
  · intro e he
    obtain ⟨_, _, _, _, _, _, _, _, hvmap, hvlen, _⟩ := hinv e he
    exact ⟨hvlen, hvmap⟩

/-- C7 witness: the concrete one-step round (3 alive players, 3 vote rows,
voters 0,1,2 in pool order). -/
theorem C7_vote_rows_per_step_witness :
    ([⟨3,1,1,1,1,0,1,"impostor","civil"⟩,
      ⟨3,1,1,1,1,1,0,"civil","impostor"⟩,
      ⟨3,1,1,1,1,2,0,"civil","impostor"⟩] : List VoteRecord).length =
        ([0,1,2] : List Nat).length ∧
    ([⟨3,1,1,1,1,0,1,"impostor","civil"⟩,
      ⟨3,1,1,1,1,1,0,"civil","impostor"⟩,
      ⟨3,1,1,1,1,2,0,"civil","impostor"⟩] : List VoteRecord).map
        (fun r => r.voter) = [0,1,2] :=
  (C7_vote_rows_per_step 4 ⟨3,1,1,1,0,[0]⟩ [0,1,2] 0 ⟨fun _ => 0, 0⟩
      _ _ ⟨fun _ => 0, 4⟩ _ ⟨fun _ => 0, 4⟩ rfl rfl).2
    ⟨[0,1,2],[1,0,0],
      [⟨3,1,1,1,1,0,1,"impostor","civil"⟩,
       ⟨3,1,1,1,1,1,0,"civil","impostor"⟩,
       ⟨3,1,1,1,1,2,0,"civil","impostor"⟩],
      [1,2],
      ⟨3,1,1,1,1,0,"impostor",2,1,false⟩⟩
    (List.mem_singleton.mpr rfl)

/-- C9: across the complete simulation no player ever votes for themselves —
every emitted VoteRecord has voter ≠ target. -/
theorem C9_no_self_vote (params : SimParams) (g : Rng) (v : List VoteRecord)
    (res : List GameResultRecord)
    (h : run_complete_simulation params g = some (v, res)) :
    ∀ r ∈ v, r.voter ≠ r.target :=
  (run_votes_results h).1

/-- C9 witness: a concrete run and one of its vote rows. -/
theorem C9_no_self_vote_witness :
    (⟨3,1,1,1,1,0,1,"impostor","civil"⟩ : VoteRecord).voter ≠
      (⟨3,1,1,1,1,0,1,"impostor","civil"⟩ : VoteRecord).target :=
  C9_no_self_vote ⟨[3],[1],1,0⟩ ⟨fun _ => 0, 0⟩
    [⟨3,1,1,1,1,0,1,"impostor","civil"⟩,
     ⟨3,1,1,1,1,1,0,"civil","impostor"⟩,
     ⟨3,1,1,1,1,2,0,"civil","impostor"⟩]
    [⟨3,1,1,1,1,0,"impostor",2,1,false⟩] rfl
    ⟨3,1,1,1,1,0,1,"impostor","civil"⟩ (List.mem_cons_self _ _)

/-- C10: in every executed step all sampled targets and the eliminated
player lie in that step's alive pool (so removal succeeds, shrinking the
pool by exactly one), and every emitted GameResultRecord of a complete run
has max_votes ≥ 1 and tie_size ≥ 1. -/
theorem C10_targets_alive_and_counts_positive :
    (∀ (fuel : Nat) (ctx : VoteContext) (alive : List Nat) (s : Nat) (g : Rng)
        (tr : List StepTrace) (gt : Rng),
        roundTrace fuel ctx alive s g = some (tr, gt) →
        ∀ e ∈ tr, (∀ t ∈ e.targets, t ∈ e.aliveBefore) ∧
          e.row.eliminated ∈ e.aliveBefore ∧
          e.aliveAfter.length + 1 = e.aliveBefore.length) ∧
    (∀ (params : SimParams) (g : Rng) (v : List VoteRecord)
        (res : List GameResultRecord),
        run_complete_simulation params g = some (v, res) →
        ∀ r ∈ res, 1 ≤ r.max_votes ∧ 1 ≤ r.tie_size) := by
  constructor
  · intro fuel ctx alive s g tr gt htr e he
    obtain ⟨hgd, _, hsub, helim, _, _, hafter, _, _, _, _⟩ :=
      roundTrace_entries _ _ _ _ _ _ _ htr e he
    have hmem : e.row.eliminated ∈ e.aliveBefore :=
      hsub _ (most_voted_subset _ helim)
    have hlen3 : 3 ≤ e.aliveBefore.length := loopGuard_length hgd
    have herase := List.length_erase_of_mem hmem
    exact ⟨hsub, hmem, by rw [hafter]; omega⟩
  · intro params g v res h
    exact (run_votes_results h).2

/-- C10 witness: the concrete one-step round and the concrete run. -/
theorem C10_targets_alive_and_counts_positive_witness :
    (⟨3,1,1,1,1,0,"impostor",2,1,false⟩ : GameResultRecord).eliminated ∈
      ([0,1,2] : List Nat) ∧
    1 ≤ (⟨3,1,1,1,1,0,"impostor",2,1,false⟩ : GameResultRecord).max_votes ∧
    1 ≤ (⟨3,1,1,1,1,0,"impostor",2,1,false⟩ : GameResultRecord).tie_size :=
  ⟨((C10_targets_alive_and_counts_positive.1 4 ⟨3,1,1,1,0,[0]⟩ [0,1,2] 0
      ⟨fun _ => 0, 0⟩ _ ⟨fun _ => 0, 4⟩ rfl)
      ⟨[0,1,2],[1,0,0],
        [⟨3,1,1,1,1,0,1,"impostor","civil"⟩,
         ⟨3,1,1,1,1,1,0,"civil","impostor"⟩,
         ⟨3,1,1,1,1,2,0,"civil","impostor"⟩],
        [1,2],
        ⟨3,1,1,1,1,0,"impostor",2,1,false⟩⟩
      (List.mem_singleton.mpr rfl)).2.1,
    C10_targets_alive_and_counts_positive.2 ⟨[3],[1],1,0⟩ ⟨fun _ => 0, 0⟩
      [⟨3,1,1,1,1,0,1,"impostor","civil"⟩,
       ⟨3,1,1,1,1,1,0,"civil","impostor"⟩,
       ⟨3,1,1,1,1,2,0,"civil","impostor"⟩]
      [⟨3,1,1,1,1,0,"impostor",2,1,false⟩] rfl
      ⟨3,1,1,1,1,0,"impostor",2,1,false⟩ (List.mem_cons_self _ _)⟩


lemma guard_true_of_card {players : List Nat} {i : Nat}
    (hcard : 3 ≤ players.toFinset.card) (hi : i ∈ players) :
    loopGuard players [i] = true := by
  have himp : nAliveImp players [i] = 1 := by
    unfold nAliveImp
    have : players.toFinset.filter (fun p => p ∈ [i]) = {i} := by
      apply Finset.ext
      intro x
      simp only [Finset.mem_filter, List.mem_toFinset, List.mem_singleton,
        Finset.mem_singleton]
      constructor
      · intro hx; exact hx.2
      · intro hx; exact ⟨hx ▸ hi, hx⟩
    rw [this, Finset.card_singleton]
  have hpart := nAlive_partition players [i]
  unfold loopGuard impostors_win
  simp only [Bool.and_eq_true, Bool.not_eq_true', decide_eq_true_eq,
    decide_eq_false_iff_not, Nat.not_le]
  omega

lemma roundTrace_ne_nil {fuel : Nat} {ctx : VoteContext} {alive : List Nat}
    {s : Nat} {g : Rng} {tr : List StepTrace} {gt : Rng}
    (h : roundTrace fuel ctx alive s g = some (tr, gt))
    (hg : loopGuard alive ctx.impostors = true) : tr ≠ [] := by
  cases fuel with
  | zero => cases h
  | succ n =>
    unfold roundTrace at h
    rw [if_pos hg] at h
    cases hct : choose_targets alive g with
    | none => simp only [hct] at h; exact Option.noConfusion h
    | some p =>
      obtain ⟨targets, g1⟩ := p
      simp only [hct] at h
      cases hpk : pick_eliminated_from_targets targets g1 with
      | none => simp only [hpk] at h; exact Option.noConfusion h
      | some q =>
        obtain ⟨elim, mv, most, g2⟩ := q
        simp only [hpk] at h
        cases htr : roundTrace n (update_ctx ctx (s + 1)) (alive.erase elim)
            (s + 1) g2 with
        | none => simp only [htr] at h; exact Option.noConfusion h
        | some tg =>
          obtain ⟨tr', g3⟩ := tg
          simp only [htr] at h
          injection h with h
          injection h with h1 _
          rw [← h1]
          exact List.cons_ne_nil _ _

lemma round_roundBlockOK {P R mid rid : Nat} {players : List Nat} {i : Nat}
    {g : Rng} {v : List VoteRecord} {res : List GameResultRecord} {gf : Rng}
    (hcard : 3 ≤ players.toFinset.card) (hi : i ∈ players)
    (h : simulate_round ⟨P, R, mid, rid, 0, [i]⟩ players g = some (v, res, gf)) :
    roundBlockOK mid rid res := by
  have haux : simulate_roundAux (players.length + 1) ⟨P, R, mid, rid, 0, [i]⟩
      players 0 g = some (v, res, gf) := h
  rw [roundAux_eq_trace] at haux
  cases htr : roundTrace (players.length + 1) ⟨P, R, mid, rid, 0, [i]⟩
      players 0 g with
  | none => rw [htr] at haux; cases haux
  | some p =>
    obtain ⟨tr, gt⟩ := p
    rw [htr] at haux
    injection haux with haux
    injection haux with hv haux
    injection haux with hres _
    have hg : loopGuard players [i] = true := guard_true_of_card hcard hi
    have htrne : tr ≠ [] := roundTrace_ne_nil htr hg
    obtain ⟨hsteps, hids⟩ := roundTrace_ids _ _ _ _ _ _ _ htr
    refine ⟨?_, ?_, ?_⟩
    · rw [← hres]
      intro hnil
      exact htrne (List.map_eq_nil_iff.mp hnil)
    · intro r hr
      rw [← hres] at hr
      obtain ⟨e, he, hre⟩ := List.mem_map.mp hr
      obtain ⟨hm, hrid⟩ := hids e he
      exact ⟨hre ▸ hm, hre ▸ hrid⟩
    · rw [← hres, List.map_map, List.length_map]
      exact hsteps

lemma rounds_blocks {P R mid : Nat} {players : List Nat}
    (hcard : 3 ≤ players.toFinset.card) :
    ∀ {n rid : Nat} {g : Rng} {v : List VoteRecord}
      {res : List GameResultRecord} {gf : Rng},
      simulate_rounds P R mid players n rid g = some (v, res, gf) →
      ∃ bs, res = bs.flatten ∧ bs.length = n ∧ matchBlocksOK mid rid bs := by
  intro n
  induction n with
  | zero =>
    intro rid g v res gf h
    injection h with h
    injection h with _ h
    injection h with hres _
    exact ⟨[], hres.symm, rfl, trivial⟩
  | succ n ih =>
    intro rid g v res gf h
    unfold simulate_rounds at h
    cases hc : choice players g with
    | none => simp only [hc] at h; exact Option.noConfusion h
    | some p =>
      obtain ⟨imp, g1⟩ := p
      simp only [hc] at h
      cases hr : simulate_round ⟨P, R, mid, rid, 0, [imp]⟩ players g1 with
      | none => simp only [hr] at h; exact Option.noConfusion h
      | some q =>
        obtain ⟨v1, r1, g2⟩ := q
        simp only [hr] at h
        cases hs : simulate_rounds P R mid players n (rid + 1) g2 with
        | none => simp only [hs] at h; exact Option.noConfusion h
        | some w =>
          obtain ⟨v2, r2, g3⟩ := w
          simp only [hs] at h
          injection h with h
          injection h with _ h
          injection h with hres _
          obtain ⟨bs, hflat, hlen, hblocks⟩ := ih hs
          have hblock : roundBlockOK mid rid r1 :=
            round_roundBlockOK hcard (choice_mem hc).1 hr
          refine ⟨r1 :: bs, ?_, ?_, hblock, hblocks⟩
          · rw [← hres, hflat]
            rfl
          · simp only [List.length_cons, hlen]

lemma match_blocks {P R mid : Nat} {g : Rng} {v : List VoteRecord}
    {res : List GameResultRecord} {gf : Rng} (hP : 3 ≤ P)
    (h : simulate_match P R mid g = some (v, res, gf)) :
    matchOK mid R res := by
  have hcard : 3 ≤ (List.range P).toFinset.card := by
    rw [List.toFinset_card_of_nodup (List.nodup_range P), List.length_range]
    exact hP
  obtain ⟨bs, hflat, hlen, hblocks⟩ := rounds_blocks hcard h
  exact ⟨bs, hflat, hlen, hblocks⟩


lemma sweepOK_append :
    ∀ {cs1 : List (Nat × Nat)} {mid : Nat} {res1 : List GameResultRecord}
      {cs2 : List (Nat × Nat)} {res2 : List GameResultRecord},
      sweepOK mid cs1 res1 → sweepOK (mid + cs1.length) cs2 res2 →
      sweepOK mid (cs1 ++ cs2) (res1 ++ res2) := by
  intro cs1
  induction cs1 with
  | nil =>
    intro mid res1 cs2 res2 h1 h2
    have hres1 : res1 = [] := h1
    rw [hres1, List.nil_append, List.nil_append]
    simpa using h2
  | cons c cs ih =>
    intro mid res1 cs2 res2 h1 h2
    obtain ⟨mres, rest, hres, hmatch, hrest⟩ := h1
    have h2' : sweepOK (mid + 1 + cs.length) cs2 res2 := by
      have harith : mid + (c :: cs).length = mid + 1 + cs.length := by
        simp only [List.length_cons]
        omega
      rw [← harith]
      exact h2
    refine ⟨mres, rest ++ res2, ?_, hmatch, ih hrest h2'⟩
    rw [hres, List.append_assoc]

lemma sweep_matches_blocks {P R : Nat} (hP : 3 ≤ P) :
    ∀ {n mid : Nat} {g : Rng} {v : List VoteRecord}
      {res : List GameResultRecord} {mid2 : Nat} {gf : Rng},
      sweep_matches P R n mid g = some (v, res, mid2, gf) →
      sweepOK mid (List.replicate n (P, R)) res ∧ mid2 = mid + n := by
  intro n
  induction n with
  | zero =>
    intro mid g v res mid2 gf h
    injection h with h
    injection h with _ h
    injection h with hres h
    injection h with hmid _
    exact ⟨hres.symm ▸ rfl, by omega⟩
  | succ n ih =>
    intro mid g v res mid2 gf h
    unfold sweep_matches at h
    cases hm : simulate_match P R (mid + 1) g with
    | none => simp only [hm] at h; exact Option.noConfusion h
    | some q =>
      obtain ⟨v1, r1, g1⟩ := q
      simp only [hm] at h
      cases hs : sweep_matches P R n (mid + 1) g1 with
      | none => simp only [hs] at h; exact Option.noConfusion h
      | some w =>
        obtain ⟨v2, r2, m2, g2⟩ := w
        simp only [hs] at h
        injection h with h
        injection h with _ h
        injection h with hres h
        injection h with hmid _
        obtain ⟨hsw, hm2⟩ := ih hs
        constructor
        · rw [← hres]
          exact ⟨r1, r2, rfl, match_blocks hP hm, hsw⟩
        · omega

lemma replicate_cells_length {P n : Nat} (Rs : List Nat) :
    (Rs.flatMap (fun R => List.replicate n (P, R))).length = n * Rs.length := by
  induction Rs with
  | nil => rfl
  | cons R Rs ih =>
    simp only [List.flatMap_cons, List.length_append, List.length_replicate, ih,
      List.length_cons]
    ring

lemma sweep_R_blocks {P : Nat} (hP : 3 ≤ P) :
    ∀ {Rs : List Nat} {n mid : Nat} {g : Rng} {v : List VoteRecord}
      {res : List GameResultRecord} {mid2 : Nat} {gf : Rng},
      sweep_R P Rs n mid g = some (v, res, mid2, gf) →
      sweepOK mid (Rs.flatMap (fun R => List.replicate n (P, R))) res ∧
        mid2 = mid + n * Rs.length := by
  intro Rs
  induction Rs with
  | nil =>
    intro n mid g v res mid2 gf h
    injection h with h
    injection h with _ h
    injection h with hres h
    injection h with hmid _
    refine ⟨hres.symm ▸ rfl, ?_⟩
    simp only [List.length_nil, Nat.mul_zero]
    omega
  | cons R Rs ih =>
    intro n mid g v res mid2 gf h
    unfold sweep_R at h
    cases hm : sweep_matches P R n mid g with
    | none => simp only [hm] at h; exact Option.noConfusion h
    | some q =>
      obtain ⟨v1, r1, m1, g1⟩ := q
      simp only [hm] at h
      cases hs : sweep_R P Rs n m1 g1 with
      | none => simp only [hs] at h; exact Option.noConfusion h
      | some w =>
        obtain ⟨v2, r2, m2, g2⟩ := w
        simp only [hs] at h
        injection h with h
        injection h with _ h
        injection h with hres h
        injection h with hmid _
        obtain ⟨hsw1, hm1⟩ := sweep_matches_blocks hP hm
        obtain ⟨hsw2, hm2⟩ := ih hs
        constructor
        · rw [← hres, List.flatMap_cons]
          refine sweepOK_append hsw1 ?_
          rw [List.length_replicate, ← hm1]
          exact hsw2
        · rw [List.length_cons]
          have harith : n * (Rs.length + 1) = n * Rs.length + n := by ring
          omega

lemma sweep_P_blocks :
    ∀ {Ps : List Nat} {Rs : List Nat} {n mid : Nat} {g : Rng}
      {v : List VoteRecord} {res : List GameResultRecord} {mid2 : Nat}
      {gf : Rng},
      (∀ P ∈ Ps, 3 ≤ P) →
      sweep_P Ps Rs n mid g = some (v, res, mid2, gf) →
      sweepOK mid
        (Ps.flatMap (fun P => Rs.flatMap (fun R => List.replicate n (P, R))))
        res := by
  intro Ps
  induction Ps with
  | nil =>
    intro Rs n mid g v res mid2 gf _ h
    injection h with h
    injection h with _ h
    injection h with hres _
    exact hres.symm ▸ rfl
  | cons P Ps ih =>
    intro Rs n mid g v res mid2 gf hPs h
    unfold sweep_P at h
    cases hm : sweep_R P Rs n mid g with
    | none => simp only [hm] at h; exact Option.noConfusion h
    | some q =>
      obtain ⟨v1, r1, m1, g1⟩ := q
      simp only [hm] at h
      cases hs : sweep_P Ps Rs n m1 g1 with
      | none => simp only [hs] at h; exact Option.noConfusion h
      | some w =>
        obtain ⟨v2, r2, m2, g2⟩ := w
        simp only [hs] at h
        injection h with h
        injection h with _ h
        injection h with hres _
        obtain ⟨hsw1, hm1⟩ := sweep_R_blocks (hPs P (List.mem_cons_self P Ps)) hm
        have hsw2 := ih (fun q hq => hPs q (List.mem_cons_of_mem P hq)) hs
        rw [← hres, List.flatMap_cons]
        refine sweepOK_append hsw1 ?_
        rw [replicate_cells_length, ← hm1]
        exact hsw2


lemma matchBlocksOK_matchId {mid : Nat} :
    ∀ {bs : List (List GameResultRecord)} {rid : Nat},
      matchBlocksOK mid rid bs → ∀ b ∈ bs, ∀ r ∈ b, r.matchId = mid := by
  intro bs
  induction bs with
  | nil => intro rid _ b hb; cases hb
  | cons b0 bs ih =>
    intro rid h b hb r hr
    obtain ⟨hblock, hrest⟩ := h
    rcases List.mem_cons.mp hb with rfl | hb
    · exact (hblock.2.1 r hr).1
    · exact ih hrest b hb r hr

lemma matchOK_matchId {mid R : Nat} {res : List GameResultRecord}
    (h : matchOK mid R res) : ∀ r ∈ res, r.matchId = mid := by
  obtain ⟨bs, hflat, _, hblocks⟩ := h
  intro r hr
  rw [hflat] at hr
  obtain ⟨b, hb, hrb⟩ := List.mem_flatten.mp hr
  exact matchBlocksOK_matchId hblocks b hb r hrb

lemma matchOK_ne_nil {mid R : Nat} {res : List GameResultRecord}
    (hR : 1 ≤ R) (h : matchOK mid R res) : res ≠ [] := by
  obtain ⟨bs, hflat, hlen, hblocks⟩ := h
  cases bs with
  | nil => rw [← hlen] at hR; cases hR
  | cons b0 bs =>
    obtain ⟨hblock, _⟩ := hblocks
    rw [hflat]
    intro hnil
    rw [show (b0 :: bs).flatten = b0 ++ bs.flatten from rfl] at hnil
    exact hblock.1 (List.append_eq_nil.mp hnil).1

lemma sweepOK_matchId_lower :
    ∀ {cs : List (Nat × Nat)} {mid : Nat} {res : List GameResultRecord},
      sweepOK mid cs res → ∀ r ∈ res, mid + 1 ≤ r.matchId := by
  intro cs
  induction cs with
  | nil =>
    intro mid res h r hr
    rw [show res = [] from h] at hr
    cases hr
  | cons c cs ih =>
    intro mid res h r hr
    obtain ⟨mres, rest, hres, hmatch, hrest⟩ := h
    rw [hres] at hr
    rcases List.mem_append.mp hr with hm | hm
    · exact le_of_eq (matchOK_matchId hmatch r hm).symm
    · have := ih hrest r hm
      omega

lemma firstOcc_const_append {a : Nat} :
    ∀ {xs : List Nat}, xs ≠ [] → (∀ x ∈ xs, x = a) → ∀ (ys : List Nat),
      firstOccurrences (xs ++ ys) =
        a :: (firstOccurrences ys).filter (fun y => y ≠ a) := by
  intro xs
  induction xs with
  | nil => intro h; exact absurd rfl h
  | cons x xs ih =>
    intro _ hall ys
    have hx : x = a := hall x (List.mem_cons_self x xs)
    cases xs with
    | nil =>
      rw [hx]
      rfl
    | cons x1 xs1 =>
      have hne : x1 :: xs1 ≠ [] := List.cons_ne_nil _ _
      have hall1 : ∀ y ∈ x1 :: xs1, y = a := fun y hy =>
        hall y (List.mem_cons_of_mem x hy)
      show firstOccurrences (x :: (x1 :: xs1 ++ ys)) = _
      rw [show firstOccurrences (x :: (x1 :: xs1 ++ ys)) =
        x :: (firstOccurrences (x1 :: xs1 ++ ys)).filter (fun y => y ≠ x)
        from rfl]
      rw [ih hne hall1 ys, hx]
      simp only [List.filter_cons]
      have hd : (decide (a ≠ a)) = false := by simp
      rw [hd]
      simp only [Bool.false_eq_true, if_false]
      rw [List.filter_filter]
      congr 1
      apply List.filter_congr
      intro y hy
      simp [Bool.and_self]


lemma sweepOK_firstOcc :
    ∀ {cs : List (Nat × Nat)} {mid : Nat} {res : List GameResultRecord},
      sweepOK mid cs res → (∀ c ∈ cs, 1 ≤ c.2) →
      firstOccurrences (res.map (fun r => r.matchId)) =
        List.range' (mid + 1) cs.length := by
  intro cs
  induction cs with
  | nil =>
    intro mid res h _
    rw [show res = [] from h]
    rfl
  | cons c cs ih =>
    intro mid res h hR
    obtain ⟨mres, rest, hres, hmatch, hrest⟩ := h
    have hmne : mres ≠ [] := matchOK_ne_nil (hR c (List.mem_cons_self c cs)) hmatch
    have hmapne : mres.map (fun r => r.matchId) ≠ [] := by
      intro hnil
      exact hmne (List.map_eq_nil_iff.mp hnil)
    have hconst : ∀ x ∈ mres.map (fun r => r.matchId), x = mid + 1 := by
      intro x hx
      obtain ⟨r, hr, hrx⟩ := List.mem_map.mp hx
      exact hrx ▸ matchOK_matchId hmatch r hr
    have hrest1 := ih hrest (fun q hq => hR q (List.mem_cons_of_mem c hq))
    rw [hres, List.map_append,
      firstOcc_const_append hmapne hconst (rest.map (fun r => r.matchId)),
      hrest1]
    have hfilter : (List.range' (mid + 1 + 1) cs.length).filter
        (fun y => y ≠ mid + 1) = List.range' (mid + 1 + 1) cs.length := by
      rw [List.filter_eq_self]
      intro x hx
      have := (List.mem_range'_1.mp hx).1
      simp only [decide_eq_true_eq]
      omega
    rw [hfilter]
    rfl

/-- C8 counterexample: sweeping P values [2, 3] (one match each, R=1): the
P=2 match emits no rows at all, so the output's match ids are [2] — they do
not start at 1 and are not contiguous over the 2 matches that ran. -/
theorem C8_counterexample :
    (run_complete_simulation ⟨[2, 3], [1], 1, 0⟩ ⟨fun _ => 0, 0⟩).map
        (fun p => p.2.map (fun r => r.matchId)) = some [2] ∧
      (sweepCells ⟨[2, 3], [1], 1, 0⟩).length = 2 ∧
      ([2] : List Nat) ≠ List.range' 1 2 :=
  ⟨rfl, rfl, by decide⟩

/-- C8 (amended): provided every swept P value is at least 3 and every R
value is at least 1, the emitted game-result rows decompose into one
nonempty block per match in sweep order with match ids exactly 1..M
(M = number of sweep cells), within each match one nonempty block per round
with round ids 1..R, and within each round step ids 1..k with no gaps; the
distinct match ids of the output, in order of appearance, are exactly
1..M. -/
theorem C8_amended_monotonic_ids (params : SimParams) (g : Rng)
    (v : List VoteRecord) (res : List GameResultRecord)
    (hP : ∀ P ∈ params.P_values, 3 ≤ P)
    (hR : ∀ R ∈ params.R_values, 1 ≤ R)
    (h : run_complete_simulation params g = some (v, res)) :
    sweepOK 0 (sweepCells params) res ∧
      firstOccurrences (res.map (fun r => r.matchId)) =
        List.range' 1 (sweepCells params).length := by
  unfold run_complete_simulation at h
  cases hs : sweep_P params.P_values params.R_values params.n_matches 0 g with
  | none => simp only [hs] at h; exact Option.noConfusion h
  | some w =>
    obtain ⟨v1, r1, m1, g1⟩ := w
    simp only [hs] at h
    injection h with h
    injection h with hv hres
    have hsw : sweepOK 0 (sweepCells params) r1 := sweep_P_blocks hP hs
    have hcells : ∀ c ∈ sweepCells params, 1 ≤ c.2 := by
      intro c hc
      unfold sweepCells at hc
      obtain ⟨P, _, hc⟩ := List.mem_flatMap.mp hc
      obtain ⟨R, hRmem, hc⟩ := List.mem_flatMap.mp hc
      rw [List.eq_of_mem_replicate hc]
      exact hR R hRmem
    rw [← hres]
    exact ⟨hsw, sweepOK_firstOcc hsw hcells⟩

/-- C8 witness: the concrete sweep P=[3], R=[1], one match. -/
theorem C8_amended_monotonic_ids_witness :
    firstOccurrences
        (([⟨3,1,1,1,1,0,"impostor",2,1,false⟩] : List GameResultRecord).map
          (fun r => r.matchId)) =
      List.range' 1 (sweepCells ⟨[3], [1], 1, 0⟩).length :=
  (C8_amended_monotonic_ids ⟨[3], [1], 1, 0⟩ ⟨fun _ => 0, 0⟩
    [⟨3,1,1,1,1,0,1,"impostor","civil"⟩,
     ⟨3,1,1,1,1,1,0,"civil","impostor"⟩,
     ⟨3,1,1,1,1,2,0,"civil","impostor"⟩]
    [⟨3,1,1,1,1,0,"impostor",2,1,false⟩]
    (by decide) (by decide) rfl).2

end GameSim
